import Mathlib

/-!
Shallow embedding of `src/streamlit_app.py` (Excel Data Analyzer: Fund Insights).

Spreadsheets are modelled as a `DataFrame`: a list of column names and a list
of rows, each row a list of cells.  A cell is `Option String`, `none` standing
for a missing value (pandas NaN).  Reading an uploaded file with
`pd.read_excel` either yields such a frame or raises, so an uploaded file
carries `Option DataFrame` (`none` = the read raises and the per-file
`except` branch runs).  All pandas operations used by the app (column
selection, constant-column assignment, `pd.concat` with outer column
alignment, `value_counts`, `nunique`) are embedded below as executable
functions on this model.
-/

/-- Whitespace characters stripped by Python `str.strip()` (the ASCII ones). -/
def pyWhitespace (c : Char) : Bool :=
  c == ' ' || c == '\t' || c == '\n' || c == '\r' || c == '\x0b' || c == '\x0c'

/-- Embedding of `str.strip()`: drop leading and trailing whitespace. -/
def pyStrip (s : String) : String :=
  ⟨((s.data.dropWhile pyWhitespace).reverse.dropWhile pyWhitespace).reverse⟩

/-- Embedding of `str.replace('.', '', regex=False)`: delete every period. -/
def removeDots (s : String) : String :=
  ⟨s.data.filter (fun c => c != '.')⟩

/-- Column-name normalisation of lines 54-55: strip, then remove periods. -/
def normalizeName (s : String) : String :=
  removeDots (pyStrip s)

/-- Embedding of `str.lower()` (ASCII case folding). -/
def lowerStr (s : String) : String :=
  ⟨s.data.map Char.toLower⟩

/-- The case-insensitive comparison `col.lower() == header.lower()`. -/
def lowerEq (a b : String) : Bool :=
  lowerStr a == lowerStr b

/-- A pandas DataFrame: column names and rows of cells (`none` = NaN). -/
structure DataFrame where
  cols : List String
  rows : List (List (Option String))
deriving DecidableEq, Repr

/-- Cell of a row at a named column: the value under the first occurrence of
the column name, `none` when the column is absent (the NaN a pandas outer
alignment would put there). -/
def cellAt : List String → List (Option String) → String → Option String
  | [], _, _ => none
  | c :: cs, r, name => if c = name then r.headD none else cellAt cs r.tail name

/-- Re-express a row over a new column list (pandas alignment). -/
def reindexRow (oldCols : List String) (r : List (Option String))
    (newCols : List String) : List (Option String) :=
  newCols.map (fun c => cellAt oldCols r c)

/-- Embedding of `pd.concat([d1, d2], ignore_index=True)`: the columns are the
union (first frame's order first), rows are aligned, absent cells become NaN. -/
def concatDF (d1 d2 : DataFrame) : DataFrame :=
  let newCols := d1.cols ++ d2.cols.filter (fun c => decide (c ∉ d1.cols))
  ⟨newCols,
    d1.rows.map (fun r => reindexRow d1.cols r newCols) ++
      d2.rows.map (fun r => reindexRow d2.cols r newCols)⟩

/-- Embedding of `df[names]`: keep the named columns, in the given order. -/
def selectCols (d : DataFrame) (names : List String) : DataFrame :=
  ⟨names, d.rows.map (fun r => names.map (fun c => cellAt d.cols r c))⟩

/-- Embedding of `extracted_df['Source File'] = uploaded_file.name` (line 79). -/
def addSourceFileCol (d : DataFrame) (nm : String) : DataFrame :=
  ⟨d.cols ++ ["Source File"], d.rows.map (fun r => r ++ [some nm])⟩

/-- Lines 54-55 applied to a whole frame: normalise every column name. -/
def normalizeDF (d : DataFrame) : DataFrame :=
  ⟨d.cols.map normalizeName, d.rows⟩

/-- The static header list of lines 20-31, verbatim. -/
def COMMON_HEADERS : List String :=
  ["Domicile", "Legal Status", "Promoter/Initiator", "Monterey SchemelD",
   "Fund Name", "Sub-Fund Name", "Region & Category", "Industry",
   "Asset Allocation", "Fund Of Funds / Fund of Hedge Funds", "Master/Feeder",
   "Monterey Admin ID", "Administrator Location", "Monterey Audit ID",
   "Auditor", "Auditor Location", "Monterey Leg ID", "Legal Adviser",
   "Legal Adviser Location", "Transfer Agent", "Monterey ManCo/AIFM ID",
   "ManCo/AlFM Location", "ManCo/AIFM Parent Origin", "ManCo/AIFM Third Party",
   "Registered AIFM", "Self Managed", "Fund Vintage Year/Launch Date",
   "Sub-Fund Vintage Year/Launch Date", "Promoter Origin Code", "Administrator",
   "UCITS/ AIF", "TNAV USD", "USS TNAV"]

/-- Line 61 / line 74: `[col for col in df.columns if col.lower() == name.lower()]`
(`cols` are the already-normalised column names of the frame). -/
def matching_cols (cols : List String) (name : String) : List String :=
  cols.filter (fun c => lowerEq c name)

/-- Lines 58-64: for each common header with a match, the first matching
(actual, normalised) column name of the frame, in `COMMON_HEADERS` order. -/
def current_file_headers (cols : List String) : List String :=
  COMMON_HEADERS.filterMap (fun h => (matching_cols cols h).head?)

/-- Lines 72-76: the column names to extract, seeking 'Domicile' and
'Legal Status' first, then the remaining found headers. -/
def cols_to_extract (cols : List String) (cfh : List String) : List String :=
  (["Domicile", "Legal Status"] ++
      cfh.filter (fun h => decide (h ∉ ["Domicile", "Legal Status"]))).filterMap
    (fun nm => (matching_cols cols nm).head?)

/-- An uploaded file: its name and the frame `pd.read_excel` yields, `none`
when the read raises (the per-file exception path). -/
structure UploadedFile where
  name : String
  content : Option DataFrame
deriving DecidableEq, Repr

/-- The mutable state of the script: `all_data_df`, `processed_files_count`,
`found_headers_across_files` (a set, kept as a duplicate-free list in insertion
order), and the progress bar (number of finished loop iterations). -/
structure AppState where
  all_data_df : DataFrame
  processed_files_count : Nat
  found_headers : List String
  progress : Nat
deriving DecidableEq, Repr

/-- Lines 34-36: empty frame, zero count, empty set (and progress bar at 0). -/
def initState : AppState :=
  ⟨⟨[], []⟩, 0, [], 0⟩

/-- `found_headers_across_files.add c` (line 64): sets do not duplicate. -/
def addFound (s : List String) (c : String) : List String :=
  if c ∈ s then s else s ++ [c]

/-- One iteration of the per-file loop (lines 45-89).  A failing read runs the
`except` branch; a file with no common header hits the `continue` of line 68;
in both cases the `finally` of lines 88-89 still advances the progress bar. -/
def processFile (st : AppState) (f : UploadedFile) : AppState :=
  match f.content with
  | none => { st with progress := st.progress + 1 }
  | some df0 =>
    let df := normalizeDF df0
    let cfh := current_file_headers df.cols
    if cfh.isEmpty then { st with progress := st.progress + 1 }
    else
      let cte := cols_to_extract df.cols cfh
      let extracted := addSourceFileCol (selectCols df cte) f.name
      { all_data_df := concatDF st.all_data_df extracted
        processed_files_count := st.processed_files_count + 1
        found_headers := cfh.foldl addFound st.found_headers
        progress := st.progress + 1 }

/-- The whole processing loop over the uploaded files. -/
def processFiles (files : List UploadedFile) : AppState :=
  files.foldl processFile initState

/-- The frame a single file contributes to `all_data_df` (its `extracted_df`
with the 'Source File' tag), paired with the file's name; `none` when the file
is skipped or its read raises. -/
def fileBlock (f : UploadedFile) : Option (DataFrame × String) :=
  match f.content with
  | none => none
  | some df0 =>
    let df := normalizeDF df0
    let cfh := current_file_headers df.cols
    if cfh.isEmpty then none
    else some (addSourceFileCol (selectCols df (cols_to_extract df.cols cfh)) f.name, f.name)

/-- The per-file contributions of a run, in order. -/
def blocks (files : List UploadedFile) : List (DataFrame × String) :=
  files.filterMap fileBlock

/-- Every extracted row, tagged with the columns of its block and the name of
its source file: the provenance of the consolidated rows. -/
def taggedRows (bs : List (DataFrame × String)) :
    List (List String × List (Option String) × String) :=
  bs.flatMap (fun b => b.1.rows.map (fun r => (b.1.cols, r, b.2)))

/-- The cells of one named column of a frame (`df[c]`). -/
def colCells (d : DataFrame) (c : String) : List (Option String) :=
  d.rows.map (fun r => cellAt d.cols r c)

/-- How many cells hold the value `v`. -/
def countVal (xs : List (Option String)) (v : Option String) : Nat :=
  (xs.filter (fun x => x == v)).length

/-- The distinct values of a list, in order of first occurrence. -/
def distinctsIn {α : Type} [DecidableEq α] (xs : List α) : List α :=
  xs.foldl (fun acc x => if x ∈ acc then acc else acc ++ [x]) []

/-- Ordering of (value, count) pairs by non-increasing count. -/
def countGE (p q : Option String × Nat) : Prop :=
  q.2 ≤ p.2

instance : DecidableRel countGE :=
  fun p q => inferInstanceAs (Decidable (q.2 ≤ p.2))

instance : IsTotal (Option String × Nat) countGE :=
  ⟨fun p q => Nat.le_total q.2 p.2⟩

instance : IsTrans (Option String × Nat) countGE :=
  ⟨fun _ _ _ h1 h2 => Nat.le_trans h2 h1⟩

/-- Embedding of `value_counts(dropna).sort_values(ascending=False)`: one
(value, count) pair per distinct value, sorted by non-increasing count. -/
def value_counts (dropna : Bool) (xs : List (Option String)) :
    List (Option String × Nat) :=
  let ys := if dropna then xs.filter (fun x => x.isSome) else xs
  List.insertionSort countGE ((distinctsIn ys).map (fun v => (v, countVal ys v)))

/-- Embedding of `Series.nunique()`: distinct non-missing values. -/
def nuniqueCells (xs : List (Option String)) : Nat :=
  (distinctsIn (xs.filter (fun x => x.isSome))).length

/-- The fields whose `value_counts(dropna=False)` table the app displays. -/
def analysedCountFields : List String :=
  ["Domicile", "Legal Status", "Industry", "Asset Allocation"]

/-- The fields whose `nunique()` the app displays. -/
def nuniqueFields : List String :=
  ["Domicile", "Legal Status", "Fund Name", "Promoter/Initiator", "Industry",
   "Asset Allocation"]

/-- The value-count table the app displays for a field (lines 102, 125, 160, 173). -/
def displayedCounts (files : List UploadedFile) (field : String) :
    List (Option String × Nat) :=
  value_counts false (colCells (processFiles files).all_data_df field)

/-- The uniqueness statistic the app displays for a field (lines 117, 140, 148, ...). -/
def displayedNunique (files : List UploadedFile) (field : String) : Nat :=
  nuniqueCells (colCells (processFiles files).all_data_df field)

/-- A single original column name is recognised as a given header by the
matching loop exactly when its normalised form passes line 61's filter. -/
def columnRecognisedAs (col header : String) : Bool :=
  lowerEq (normalizeName col) header

/-- Whether the matching loop finds a given header in a file whose ORIGINAL
column names are `cols` (lines 54-62: normalise, then filter). -/
def headerFoundInFile (cols : List String) (header : String) : Bool :=
  !(matching_cols (cols.map normalizeName) header).isEmpty

/-- Modelled from the claim wording of C1: two names are "equal up to case
differences and up to whitespace differences" when deleting all whitespace and
folding case makes them identical. -/
def specEqUpToCaseAndWhitespace (a b : String) : Bool :=
  (a.data.filter (fun c => !(pyWhitespace c))).map Char.toLower ==
    (b.data.filter (fun c => !(pyWhitespace c))).map Char.toLower

/-- The row count a file contributes: the row count of its spreadsheet when it
is successfully processed, and 0 when it is skipped or its read raises. -/
def contributedRows (f : UploadedFile) : Nat :=
  match fileBlock f with
  | some _ => (f.content.getD ⟨[], []⟩).rows.length
  | none => 0

/-- The persistent outputs of a run (everything except the progress bar). -/
def core (st : AppState) : DataFrame × Nat × List String :=
  (st.all_data_df, st.processed_files_count, st.found_headers)

/-- A consolidated row matches a tagged source row when they agree cell-wise
at every column name. -/
def RowMatches (dcols : List String) (r : List (Option String))
    (t : List String × List (Option String) × String) : Prop :=
  ∀ c, cellAt dcols r c = cellAt t.1 t.2.1 c

/-- A sample uploaded spreadsheet used to witness the theorems. -/
def sampleDF : DataFrame :=
  ⟨["Domicile", "Legal Status", "Other"],
   [[some "IE", some "PLC", some "x"],
    [some "LU", none, some "y"],
    [some "IE", some "SICAV", none]]⟩

def sampleFile : UploadedFile :=
  ⟨"funds.xlsx", some sampleDF⟩

/-- A file whose read raises. -/
def badFile : UploadedFile :=
  ⟨"bad.xlsx", none⟩

/-- A file with no common header at all. -/
def noHeaderFile : UploadedFile :=
  ⟨"nohdr.xlsx", some ⟨["Foo"], [[some "z"]]⟩⟩

/-- A file whose 'Auditor' column carries a stray period. -/
def auditorDotFile : UploadedFile :=
  ⟨"audit.xlsx", some ⟨["Auditor."], [[some "KPMG"]]⟩⟩

/-! ### Basic lemmas about cell access and alignment -/

theorem cellAt_map_self (cols : List String) (g : String → Option String) (c : String) :
    cellAt cols (cols.map g) c = if c ∈ cols then g c else none := by
  induction cols with
  | nil => simp [cellAt]
  | cons a cs ih =>
    by_cases hac : a = c
    · subst hac
      simp [cellAt]
    · simp [cellAt, hac, ih, Ne.symm hac]

theorem cellAt_eq_none_of_not_mem (cols : List String) (r : List (Option String))
    (c : String) (h : c ∉ cols) : cellAt cols r c = none := by
  induction cols generalizing r with
  | nil => simp [cellAt]
  | cons a cs ih =>
    have hac : a ≠ c := fun hh => h (hh ▸ List.mem_cons_self a cs)
    simpa [cellAt, hac] using ih r.tail (fun hm => h (List.mem_cons_of_mem a hm))

theorem cellAt_reindexRow (oldCols : List String) (r : List (Option String))
    (newCols : List String) (hsub : ∀ x ∈ oldCols, x ∈ newCols) (c : String) :
    cellAt newCols (reindexRow oldCols r newCols) c = cellAt oldCols r c := by
  unfold reindexRow
  rw [cellAt_map_self]
  by_cases hc : c ∈ newCols
  · simp [hc]
  · have hc' : c ∉ oldCols := fun hm => hc (hsub c hm)
    simp [hc, cellAt_eq_none_of_not_mem _ _ _ hc']

theorem concatDF_cols (d1 d2 : DataFrame) :
    (concatDF d1 d2).cols = d1.cols ++ d2.cols.filter (fun c => decide (c ∉ d1.cols)) :=
  rfl

theorem concatDF_rows (d1 d2 : DataFrame) :
    (concatDF d1 d2).rows =
      d1.rows.map (fun r => reindexRow d1.cols r (concatDF d1 d2).cols) ++
        d2.rows.map (fun r => reindexRow d2.cols r (concatDF d1 d2).cols) :=
  rfl

theorem subset_concatDF_left (d1 d2 : DataFrame) :
    ∀ x ∈ d1.cols, x ∈ (concatDF d1 d2).cols := by
  intro x hx
  rw [concatDF_cols]
  exact List.mem_append_left _ hx

theorem subset_concatDF_right (d1 d2 : DataFrame) :
    ∀ x ∈ d2.cols, x ∈ (concatDF d1 d2).cols := by
  intro x hx
  rw [concatDF_cols]
  by_cases h1 : x ∈ d1.cols
  · exact List.mem_append_left _ h1
  · exact List.mem_append_right _ (List.mem_filter.2 ⟨hx, by simpa using h1⟩)

theorem mem_concatDF_cols (d1 d2 : DataFrame) (c : String)
    (h : c ∈ (concatDF d1 d2).cols) : c ∈ d1.cols ∨ c ∈ d2.cols := by
  rw [concatDF_cols] at h
  rcases List.mem_append.1 h with h1 | h2
  · exact Or.inl h1
  · exact Or.inr (List.mem_filter.1 h2).1

theorem cellAt_append_last (cs : List String) (r : List (Option String))
    (c : String) (v : Option String) (hnm : c ∉ cs) (hlen : r.length = cs.length) :
    cellAt (cs ++ [c]) (r ++ [v]) c = v := by
  induction cs generalizing r with
  | nil =>
    have : r = [] := List.length_eq_zero.1 hlen
    subst this
    simp [cellAt]
  | cons a cs ih =>
    have hac : a ≠ c := fun hh => hnm (hh ▸ List.mem_cons_self a cs)
    cases r with
    | nil => simp at hlen
    | cons b r' =>
      have hlen' : r'.length = cs.length := by simpa using hlen
      simpa [cellAt, hac] using ih r' (fun hm => hnm (List.mem_cons_of_mem a hm)) hlen'

/-! ### Structure of one loop iteration -/

theorem fileBlock_some_elim (f : UploadedFile) (b : DataFrame × String)
    (h : fileBlock f = some b) :
    ∃ df0, f.content = some df0 ∧
      (current_file_headers (normalizeDF df0).cols).isEmpty = false ∧
      b = (addSourceFileCol
            (selectCols (normalizeDF df0)
              (cols_to_extract (normalizeDF df0).cols
                (current_file_headers (normalizeDF df0).cols))) f.name, f.name) := by
  cases hc : f.content with
  | none => simp [fileBlock, hc] at h
  | some df0 =>
    refine ⟨df0, rfl, ?_⟩
    by_cases he : (current_file_headers (normalizeDF df0).cols).isEmpty
    · simp [fileBlock, hc, he] at h
    · simp [fileBlock, hc, he] at h
      exact ⟨by simpa using he, h.symm⟩

theorem allData_processFile (st : AppState) (f : UploadedFile) :
    (processFile st f).all_data_df =
      (match fileBlock f with
       | none => st.all_data_df
       | some b => concatDF st.all_data_df b.1) := by
  cases hc : f.content with
  | none => simp [processFile, fileBlock, hc]
  | some df0 =>
    by_cases he : (current_file_headers (normalizeDF df0).cols).isEmpty
    · simp [processFile, fileBlock, hc, he]
    · simp [processFile, fileBlock, hc, he]

theorem count_processFile (st : AppState) (f : UploadedFile) :
    (processFile st f).processed_files_count =
      (match fileBlock f with
       | none => st.processed_files_count
       | some _ => st.processed_files_count + 1) := by
  cases hc : f.content with
  | none => simp [processFile, fileBlock, hc]
  | some df0 =>
    by_cases he : (current_file_headers (normalizeDF df0).cols).isEmpty
    · simp [processFile, fileBlock, hc, he]
    · simp [processFile, fileBlock, hc, he]

theorem progress_processFile (st : AppState) (f : UploadedFile) :
    (processFile st f).progress = st.progress + 1 := by
  cases hc : f.content with
  | none => simp [processFile, hc]
  | some df0 =>
    by_cases he : (current_file_headers (normalizeDF df0).cols).isEmpty
    · simp [processFile, hc, he]
    · simp [processFile, hc, he]

theorem blocks_cons (f : UploadedFile) (fs : List UploadedFile) :
    blocks (f :: fs) =
      (match fileBlock f with
       | none => blocks fs
       | some b => b :: blocks fs) := by
  cases h : fileBlock f <;> simp [blocks, List.filterMap_cons, h]

/-! ### Forall₂ helpers -/

theorem forall₂_map_map {α β γ : Type} (R : β → γ → Prop) (f : α → β) (g : α → γ)
    (l : List α) (h : ∀ a ∈ l, R (f a) (g a)) :
    List.Forall₂ R (l.map f) (l.map g) := by
  induction l with
  | nil => simp
  | cons a l ih =>
    simp only [List.map_cons]
    exact List.Forall₂.cons (h a (List.mem_cons_self a l))
      (ih (fun x hx => h x (List.mem_cons_of_mem a hx)))

theorem forall₂_imp_right_mem {α β : Type} {R S : α → β → Prop}
    {l₁ : List α} {l₂ : List β} (h : List.Forall₂ R l₁ l₂)
    (himp : ∀ a b, b ∈ l₂ → R a b → S a b) : List.Forall₂ S l₁ l₂ := by
  induction h with
  | nil => exact List.Forall₂.nil
  | cons hab _ ih =>
    refine List.Forall₂.cons (himp _ _ (List.mem_cons_self _ _) hab) (ih ?_)
    exact fun a b hb => himp a b (List.mem_cons_of_mem _ hb)

theorem taggedRows_append (bs1 bs2 : List (DataFrame × String)) :
    taggedRows (bs1 ++ bs2) = taggedRows bs1 ++ taggedRows bs2 := by
  simp [taggedRows]

/-! ### The provenance invariant of the consolidated table -/

theorem foldl_rowMatches (files : List UploadedFile) :
    ∀ (st : AppState) (bs : List (DataFrame × String)),
      List.Forall₂ (RowMatches st.all_data_df.cols) st.all_data_df.rows (taggedRows bs) →
      List.Forall₂ (RowMatches (files.foldl processFile st).all_data_df.cols)
        (files.foldl processFile st).all_data_df.rows (taggedRows (bs ++ blocks files)) := by
  induction files with
  | nil =>
    intro st bs h
    simpa [blocks] using h
  | cons f fs ih =>
    intro st bs h
    rw [List.foldl_cons]
    cases hb : fileBlock f with
    | none =>
      have hAll : (processFile st f).all_data_df = st.all_data_df := by
        rw [allData_processFile, hb]
      have := ih (processFile st f) bs (by rw [hAll]; exact h)
      simpa [blocks_cons, hb] using this
    | some b =>
      have hAll : (processFile st f).all_data_df = concatDF st.all_data_df b.1 := by
        rw [allData_processFile, hb]
      have hnew : List.Forall₂ (RowMatches (processFile st f).all_data_df.cols)
          (processFile st f).all_data_df.rows (taggedRows (bs ++ [b])) := by
        rw [hAll, taggedRows_append]
        rw [concatDF_rows]
        have htag1 : List.Forall₂
            (RowMatches (concatDF st.all_data_df b.1).cols)
            (st.all_data_df.rows.map
              (fun r => reindexRow st.all_data_df.cols r (concatDF st.all_data_df b.1).cols))
            (taggedRows bs) := by
          rw [List.forall₂_map_left_iff]
          refine h.imp ?_
          intro r t hrt c
          rw [cellAt_reindexRow _ _ _ (subset_concatDF_left _ _) c]
          exact hrt c
        have htag2 : List.Forall₂
            (RowMatches (concatDF st.all_data_df b.1).cols)
            (b.1.rows.map
              (fun r => reindexRow b.1.cols r (concatDF st.all_data_df b.1).cols))
            (taggedRows [b]) := by
          have : taggedRows [b] = b.1.rows.map (fun r => (b.1.cols, r, b.2)) := by
            simp [taggedRows]
          rw [this]
          refine forall₂_map_map _ _ _ _ ?_
          intro r _ c
          exact cellAt_reindexRow _ _ _ (subset_concatDF_right _ _) c
        exact List.rel_append htag1 htag2
      have := ih (processFile st f) (bs ++ [b]) hnew
      simpa [blocks_cons, hb, List.append_assoc] using this

theorem processFiles_rowMatches (files : List UploadedFile) :
    List.Forall₂ (RowMatches (processFiles files).all_data_df.cols)
      (processFiles files).all_data_df.rows (taggedRows (blocks files)) := by
  have := foldl_rowMatches files initState []
  simpa [processFiles, initState, taggedRows] using
    this (by simp [initState, taggedRows])

/-! ### What the extracted columns can be -/

theorem lowerStr_eq_of_mem_matching (cols : List String) (nm c : String)
    (h : c ∈ matching_cols cols nm) : lowerStr c = lowerStr nm := by
  have := (List.mem_filter.1 h).2
  simpa [lowerEq] using this

theorem cfh_matches (cols : List String) (nm : String)
    (h : nm ∈ current_file_headers cols) :
    ∃ hd ∈ COMMON_HEADERS, lowerStr nm = lowerStr hd := by
  rcases List.mem_filterMap.1 h with ⟨hd, hmem, hh⟩
  refine ⟨hd, hmem, ?_⟩
  exact lowerStr_eq_of_mem_matching cols hd nm
    (List.mem_of_mem_head? (Option.mem_def.2 hh))

theorem cte_matches (cols : List String) (c : String)
    (h : c ∈ cols_to_extract cols (current_file_headers cols)) :
    ∃ hd ∈ COMMON_HEADERS, lowerStr c = lowerStr hd := by
  rcases List.mem_filterMap.1 h with ⟨nm, hmem, hh⟩
  have hc : lowerStr c = lowerStr nm :=
    lowerStr_eq_of_mem_matching cols nm c (List.mem_of_mem_head? (Option.mem_def.2 hh))
  rcases List.mem_append.1 hmem with h1 | h2
  · have h1' : nm = "Domicile" ∨ nm = "Legal Status" := by simpa using h1
    rcases h1' with h1' | h1'
    · exact ⟨"Domicile", by decide, by rw [hc, h1']⟩
    · exact ⟨"Legal Status", by decide, by rw [hc, h1']⟩
  · rcases cfh_matches cols nm (List.mem_filter.1 h2).1 with ⟨hd, hdm, hnm⟩
    exact ⟨hd, hdm, hc.trans hnm⟩

theorem sourceFile_not_header :
    ¬ ∃ hd ∈ COMMON_HEADERS, lowerStr "Source File" = lowerStr hd := by
  decide

theorem sourceFile_not_mem_cte (cols : List String) :
    "Source File" ∉ cols_to_extract cols (current_file_headers cols) := by
  intro h
  exact sourceFile_not_header (cte_matches cols _ h)

theorem block_sourceFile (f : UploadedFile) (b : DataFrame × String)
    (hb : fileBlock f = some b) :
    ∀ r ∈ b.1.rows, cellAt b.1.cols r "Source File" = some b.2 := by
  rcases fileBlock_some_elim f b hb with ⟨df0, _, _, hbe⟩
  subst hbe
  intro r hr
  simp only [addSourceFileCol, selectCols, List.map_map, List.mem_map] at hr
  rcases hr with ⟨r0, _, hr0⟩
  subst hr0
  simp only [addSourceFileCol, selectCols]
  exact cellAt_append_last _ _ _ _ (sourceFile_not_mem_cte _) (by simp)

theorem block_rows_length (f : UploadedFile) (b : DataFrame × String)
    (df0 : DataFrame) (hb : fileBlock f = some b) (hc : f.content = some df0) :
    b.1.rows.length = df0.rows.length := by
  rcases fileBlock_some_elim f b hb with ⟨df1, hc1, _, hbe⟩
  rw [hc] at hc1
  cases hc1
  subst hbe
  simp [addSourceFileCol, selectCols, normalizeDF]

/-! ### Row counts -/

theorem taggedRows_length (bs : List (DataFrame × String)) :
    (taggedRows bs).length = (bs.map (fun b => b.1.rows.length)).sum := by
  induction bs with
  | nil => simp [taggedRows]
  | cons b bs ih =>
    simp only [taggedRows, List.flatMap_cons, List.length_append, List.length_map,
      List.map_cons, List.sum_cons] at ih ⊢
    rw [ih]

theorem sum_contributedRows (files : List UploadedFile) :
    (files.map contributedRows).sum = ((blocks files).map (fun b => b.1.rows.length)).sum := by
  induction files with
  | nil => simp [blocks]
  | cons f fs ih =>
    cases hb : fileBlock f with
    | none => simp [contributedRows, hb, blocks_cons, ih]
    | some b =>
      rcases fileBlock_some_elim f b hb with ⟨df0, hc, _, _⟩
      have hlen : b.1.rows.length = df0.rows.length := block_rows_length f b df0 hb hc
      simp [contributedRows, hb, blocks_cons, ih, hc, hlen]

theorem mem_taggedRows_blocks (files : List UploadedFile)
    (t : List String × List (Option String) × String)
    (ht : t ∈ taggedRows (blocks files)) :
    ∃ f ∈ files, ∃ b, fileBlock f = some b ∧ b.2 = f.name ∧
      t.1 = b.1.cols ∧ t.2.1 ∈ b.1.rows ∧ t.2.2 = b.2 := by
  rcases List.mem_flatMap.1 ht with ⟨b, hbmem, htb⟩
  rcases List.mem_filterMap.1 hbmem with ⟨f, hfmem, hfb⟩
  rcases List.mem_map.1 htb with ⟨r, hrmem, hrt⟩
  refine ⟨f, hfmem, b, hfb, ?_, ?_, ?_, ?_⟩
  · rcases fileBlock_some_elim f b hfb with ⟨df0, _, _, hbe⟩
    rw [hbe]
  · rw [← hrt]
  · rw [← hrt]; exact hrmem
  · rw [← hrt]

/-! ### The persistent state does not depend on the progress bar -/

theorem core_processFile_congr (st₁ st₂ : AppState) (f : UploadedFile)
    (h : core st₁ = core st₂) : core (processFile st₁ f) = core (processFile st₂ f) := by
  cases st₁ with
  | mk a₁ c₁ fh₁ p₁ =>
    cases st₂ with
    | mk a₂ c₂ fh₂ p₂ =>
      simp only [core, Prod.mk.injEq] at h
      rcases h with ⟨h1, h2, h3⟩
      subst h1; subst h2; subst h3
      cases hc : f.content with
      | none => simp [processFile, hc, core]
      | some df0 =>
        by_cases he : (current_file_headers (normalizeDF df0).cols).isEmpty <;>
          simp [processFile, hc, he, core]

theorem core_foldl_congr (fs : List UploadedFile) :
    ∀ st₁ st₂ : AppState, core st₁ = core st₂ →
      core (fs.foldl processFile st₁) = core (fs.foldl processFile st₂) := by
  induction fs with
  | nil => intro st₁ st₂ h; simpa using h
  | cons f fs ih =>
    intro st₁ st₂ h
    exact ih _ _ (core_processFile_congr st₁ st₂ f h)

theorem progress_foldl (fs : List UploadedFile) :
    ∀ st : AppState, (fs.foldl processFile st).progress = st.progress + fs.length := by
  induction fs with
  | nil => intro st; simp
  | cons f fs ih =>
    intro st
    rw [List.foldl_cons, ih, progress_processFile]
    simp only [List.length_cons]
    omega

theorem processFile_of_fileBlock_none (st : AppState) (f : UploadedFile)
    (h : fileBlock f = none) :
    processFile st f = { st with progress := st.progress + 1 } := by
  cases hc : f.content with
  | none => simp [processFile, hc]
  | some df0 =>
    by_cases he : (current_file_headers (normalizeDF df0).cols).isEmpty
    · simp [processFile, hc, he]
    · simp [fileBlock, hc, he] at h

theorem core_skip_file (pre post : List UploadedFile) (f : UploadedFile)
    (h : fileBlock f = none) :
    core (processFiles (pre ++ f :: post)) = core (processFiles (pre ++ post)) := by
  unfold processFiles
  rw [List.foldl_append, List.foldl_append, List.foldl_cons]
  refine core_foldl_congr post _ _ ?_
  rw [processFile_of_fileBlock_none _ _ h]
  rfl

/-! ### Lemmas about distinct values and value counts -/

theorem mem_distinct_foldl {α : Type} [DecidableEq α] (xs : List α) :
    ∀ (acc : List α) (v : α),
      v ∈ xs.foldl (fun acc x => if x ∈ acc then acc else acc ++ [x]) acc ↔
        v ∈ acc ∨ v ∈ xs := by
  induction xs with
  | nil => intro acc v; simp
  | cons x xs ih =>
    intro acc v
    rw [List.foldl_cons, ih]
    by_cases hx : x ∈ acc
    · simp only [if_pos hx, List.mem_cons]
      constructor
      · rintro (h | h)
        · exact Or.inl h
        · exact Or.inr (Or.inr h)
      · rintro (h | h | h)
        · exact Or.inl h
        · exact Or.inl (h ▸ hx)
        · exact Or.inr h
    · simp only [if_neg hx, List.mem_append, List.mem_singleton, List.mem_cons]
      tauto

theorem nodup_distinct_foldl {α : Type} [DecidableEq α] (xs : List α) :
    ∀ acc : List α, acc.Nodup →
      (xs.foldl (fun acc x => if x ∈ acc then acc else acc ++ [x]) acc).Nodup := by
  induction xs with
  | nil => intro acc h; simpa using h
  | cons x xs ih =>
    intro acc h
    rw [List.foldl_cons]
    refine ih _ ?_
    by_cases hx : x ∈ acc
    · simpa [hx] using h
    · simp [hx, List.nodup_append, h]

theorem mem_distinctsIn {α : Type} [DecidableEq α] (xs : List α) (v : α) :
    v ∈ distinctsIn xs ↔ v ∈ xs := by
  unfold distinctsIn
  rw [mem_distinct_foldl]
  simp

theorem nodup_distinctsIn {α : Type} [DecidableEq α] (xs : List α) :
    (distinctsIn xs).Nodup :=
  nodup_distinct_foldl xs [] List.nodup_nil

theorem value_counts_false_eq (xs : List (Option String)) :
    value_counts false xs =
      List.insertionSort countGE ((distinctsIn xs).map (fun v => (v, countVal xs v))) := by
  simp [value_counts]

theorem mem_value_counts_false (xs : List (Option String)) (p : Option String × Nat)
    (h : p ∈ value_counts false xs) : p.2 = countVal xs p.1 ∧ p.1 ∈ xs := by
  rw [value_counts_false_eq] at h
  rw [List.mem_insertionSort] at h
  rcases List.mem_map.1 h with ⟨v, hv, hp⟩
  subst hp
  exact ⟨rfl, (mem_distinctsIn xs v).1 hv⟩

theorem value_counts_false_complete (xs : List (Option String)) (v : Option String)
    (h : v ∈ xs) : (v, countVal xs v) ∈ value_counts false xs := by
  rw [value_counts_false_eq, List.mem_insertionSort]
  exact List.mem_map_of_mem _ ((mem_distinctsIn xs v).2 h)

theorem value_counts_false_sorted (xs : List (Option String)) :
    List.Pairwise countGE (value_counts false xs) := by
  rw [value_counts_false_eq]
  exact List.sorted_insertionSort countGE _

theorem value_counts_false_keys_nodup (xs : List (Option String)) :
    ((value_counts false xs).map Prod.fst).Nodup := by
  rw [value_counts_false_eq]
  have hperm := (List.perm_insertionSort countGE
    ((distinctsIn xs).map (fun v => (v, countVal xs v)))).map Prod.fst
  refine hperm.nodup_iff.2 ?_
  rw [List.map_map]
  have hid : (Prod.fst ∘ fun v => (v, countVal xs v)) = id := rfl
  rw [hid, List.map_id]
  exact nodup_distinctsIn xs

theorem countVal_map (l : List (List (Option String)))
    (g : List (Option String) → Option String) (v : Option String) :
    countVal (l.map g) v = (l.filter (fun r => g r == v)).length := by
  unfold countVal
  rw [List.filter_map, List.length_map]
  rfl

theorem filter_isSome_eq (xs : List (Option String)) :
    xs.filter (fun x => x.isSome) = (xs.filterMap id).map some := by
  induction xs with
  | nil => rfl
  | cons x xs ih =>
    cases x with
    | none => simpa using ih
    | some a => simpa using ih

theorem distinctsIn_foldl_map {α β : Type} [DecidableEq α] [DecidableEq β]
    (f : α → β) (hf : Function.Injective f) (l : List α) :
    ∀ acc : List α,
      (l.map f).foldl (fun acc x => if x ∈ acc then acc else acc ++ [x]) (acc.map f) =
        (l.foldl (fun acc x => if x ∈ acc then acc else acc ++ [x]) acc).map f := by
  induction l with
  | nil => intro acc; simp
  | cons x l ih =>
    intro acc
    simp only [List.map_cons, List.foldl_cons]
    by_cases hx : x ∈ acc
    · rw [if_pos (List.mem_map_of_mem f hx), if_pos hx, ih]
    · have hx' : f x ∉ acc.map f := by
        intro hm
        rcases List.mem_map.1 hm with ⟨y, hy, hxy⟩
        exact hx ((hf hxy) ▸ hy)
      rw [if_neg hx', if_neg hx]
      have h2 : acc.map f ++ [f x] = (acc ++ [x]).map f := by simp
      rw [h2, ih]

theorem distinctsIn_map_inj {α β : Type} [DecidableEq α] [DecidableEq β]
    (f : α → β) (hf : Function.Injective f) (l : List α) :
    distinctsIn (l.map f) = (distinctsIn l).map f := by
  unfold distinctsIn
  simpa using distinctsIn_foldl_map f hf l []

theorem nuniqueCells_eq_card (xs : List (Option String)) :
    nuniqueCells xs = (xs.filterMap id).toFinset.card := by
  unfold nuniqueCells
  rw [filter_isSome_eq]
  rw [distinctsIn_map_inj some (Option.some_injective String) (xs.filterMap id),
    List.length_map]
  have hnd : (distinctsIn (xs.filterMap id)).Nodup := nodup_distinctsIn _
  have hfs : (distinctsIn (xs.filterMap id)).toFinset = (xs.filterMap id).toFinset := by
    apply Finset.ext
    intro a
    simp [List.mem_toFinset, mem_distinctsIn]
  rw [← List.toFinset_card_of_nodup hnd, hfs]

/-! ### Which columns the consolidated table can contain -/

theorem block_cols_prop (f : UploadedFile) (b : DataFrame × String)
    (hb : fileBlock f = some b) :
    ∀ c ∈ b.1.cols, c = "Source File" ∨ ∃ hd ∈ COMMON_HEADERS, lowerStr c = lowerStr hd := by
  rcases fileBlock_some_elim f b hb with ⟨df0, _, _, hbe⟩
  subst hbe
  intro c hc
  simp only [addSourceFileCol, selectCols] at hc
  rcases List.mem_append.1 hc with h1 | h2
  · exact Or.inr (cte_matches (normalizeDF df0).cols c h1)
  · exact Or.inl (List.mem_singleton.1 h2)

theorem cols_foldl_invariant (files : List UploadedFile) :
    ∀ st : AppState,
      (∀ c ∈ st.all_data_df.cols,
        c = "Source File" ∨ ∃ hd ∈ COMMON_HEADERS, lowerStr c = lowerStr hd) →
      ∀ c ∈ (files.foldl processFile st).all_data_df.cols,
        c = "Source File" ∨ ∃ hd ∈ COMMON_HEADERS, lowerStr c = lowerStr hd := by
  induction files with
  | nil => intro st h; simpa using h
  | cons f fs ih =>
    intro st h
    rw [List.foldl_cons]
    refine ih (processFile st f) ?_
    intro c hc
    rw [allData_processFile] at hc
    cases hb : fileBlock f with
    | none =>
      rw [hb] at hc
      exact h c hc
    | some b =>
      rw [hb] at hc
      rcases mem_concatDF_cols _ _ _ hc with h1 | h2
      · exact h c h1
      · exact block_cols_prop f b hb c h2

/-! ### The claims -/

/-- C1 counterexample: the claim's "recognised iff equal up to case and
whitespace differences" fails in both directions.  'Legal  Status' (two inner
spaces) is a whitespace variation of the listed header 'Legal Status' yet is
not matched, because only leading/trailing whitespace is stripped; conversely
'Domicile.' is matched as 'Domicile' although the two differ by a period, not
by case or whitespace. -/
theorem c1_counterexample :
    "Legal Status" ∈ COMMON_HEADERS ∧
      specEqUpToCaseAndWhitespace "Legal  Status" "Legal Status" = true ∧
      headerFoundInFile ["Legal  Status"] "Legal Status" = false ∧
      "Domicile" ∈ COMMON_HEADERS ∧
      headerFoundInFile ["Domicile."] "Domicile" = true ∧
      specEqUpToCaseAndWhitespace "Domicile." "Domicile" = false := by
  decide

/-- C1 (amended): for every header of the fixed common-header list, the
matching loop of lines 54-62 recognises a column of the file exactly when the
column name, after stripping leading/trailing whitespace and deleting all
period characters, equals the header up to case; interior whitespace must
match exactly. -/
theorem c1_header_matching (cols : List String) (h : String)
    (_hmem : h ∈ COMMON_HEADERS) :
    headerFoundInFile cols h = true ↔ ∃ c ∈ cols, columnRecognisedAs c h = true := by
  unfold headerFoundInFile columnRecognisedAs matching_cols
  rw [List.filter_map]
  simp [List.isEmpty_iff, List.map_eq_nil_iff, List.filter_eq_nil_iff]

theorem c1_header_matching_witness :
    ("Legal Status" ∈ COMMON_HEADERS) ∧
      (headerFoundInFile [" legal STATUS "] "Legal Status" = true ↔
        ∃ c ∈ [" legal STATUS "], columnRecognisedAs c "Legal Status" = true) :=
  ⟨by decide, c1_header_matching [" legal STATUS "] "Legal Status" (by decide)⟩

/-- C2: every row of the consolidated table carries, in the 'Source File'
column, exactly the name of the uploaded file it was extracted from.  The
consolidated rows are matched one-to-one (in order) with the tagged extracted
rows, each consolidated row's 'Source File' cell equals its tag, and every tag
is the name of the file whose extraction produced the row. -/
theorem c2_source_file_tag (files : List UploadedFile) :
    List.Forall₂
      (fun r t => cellAt (processFiles files).all_data_df.cols r "Source File" = some t.2.2)
      (processFiles files).all_data_df.rows (taggedRows (blocks files)) ∧
    ∀ t ∈ taggedRows (blocks files), ∃ f ∈ files, fileBlock f ≠ none ∧ t.2.2 = f.name := by
  constructor
  · refine forall₂_imp_right_mem (processFiles_rowMatches files) ?_
    intro r t ht hrm
    rcases mem_taggedRows_blocks files t ht with ⟨f, _, b, hfb, _, ht1, ht2, ht3⟩
    rw [hrm "Source File", ht1, ht3]
    exact block_sourceFile f b hfb t.2.1 ht2
  · intro t ht
    rcases mem_taggedRows_blocks files t ht with ⟨f, hfmem, b, hfb, hbn, _, _, ht3⟩
    exact ⟨f, hfmem, by rw [hfb]; exact fun hh => Option.noConfusion hh, ht3.trans hbn⟩

theorem c2_source_file_tag_witness :
    List.Forall₂
      (fun r t => cellAt (processFiles [sampleFile]).all_data_df.cols r "Source File" = some t.2.2)
      (processFiles [sampleFile]).all_data_df.rows (taggedRows (blocks [sampleFile])) ∧
    ∀ t ∈ taggedRows (blocks [sampleFile]),
      ∃ f ∈ [sampleFile], fileBlock f ≠ none ∧ t.2.2 = f.name :=
  c2_source_file_tag [sampleFile]

/-- C3: the consolidated table has exactly as many rows as the successfully
processed files contribute (the sum of their spreadsheets' row counts -
`contributedRows` is the file's own row count when it is processed and 0 when
it is skipped or fails), and concatenation neither drops, duplicates, nor
alters rows: the consolidated rows correspond one-to-one, in order, to the
extracted rows, agreeing cell-by-cell at every column name. -/
theorem c3_concat_exact (files : List UploadedFile) :
    (processFiles files).all_data_df.rows.length = (files.map contributedRows).sum ∧
    List.Forall₂ (RowMatches (processFiles files).all_data_df.cols)
      (processFiles files).all_data_df.rows (taggedRows (blocks files)) := by
  refine ⟨?_, processFiles_rowMatches files⟩
  have h := (processFiles_rowMatches files).length_eq
  rw [h, taggedRows_length, sum_contributedRows]

/-- C4: every column of the consolidated table is either the added
'Source File' tag or matches (case-insensitively) one of the 33 headers of the
static `COMMON_HEADERS` list.  The list itself is a fixed constant of the
embedding - processing never modifies it - and its length is 33. -/
theorem c4_cols_only_common (files : List UploadedFile) (c : String)
    (hc : c ∈ (processFiles files).all_data_df.cols) :
    (c = "Source File" ∨ ∃ hd ∈ COMMON_HEADERS, lowerStr c = lowerStr hd) ∧
      COMMON_HEADERS.length = 33 := by
  refine ⟨?_, by decide⟩
  exact cols_foldl_invariant files initState (by simp [initState]) c hc

theorem c4_cols_only_common_witness :
    ("Domicile" ∈ (processFiles [sampleFile]).all_data_df.cols) ∧
      (("Domicile" = "Source File" ∨
          ∃ hd ∈ COMMON_HEADERS, lowerStr "Domicile" = lowerStr hd) ∧
        COMMON_HEADERS.length = 33) :=
  ⟨by decide, c4_cols_only_common [sampleFile] "Domicile" (by decide)⟩

/-- C5: for every analysed field, the displayed `value_counts(dropna=False)`
table maps each value occurring in that column of the consolidated table
(missing values included, as the `none` entry) to the exact number of
consolidated rows holding that value; every occurring value has exactly one
entry and the entries are listed in non-increasing order of count. -/
theorem c5_value_count_tables (files : List UploadedFile) (field : String)
    (_hf : field ∈ analysedCountFields) :
    (∀ p ∈ displayedCounts files field,
        p.2 = ((processFiles files).all_data_df.rows.filter
          (fun r => cellAt (processFiles files).all_data_df.cols r field == p.1)).length) ∧
    (∀ r ∈ (processFiles files).all_data_df.rows,
        ∃ n, (cellAt (processFiles files).all_data_df.cols r field, n) ∈
          displayedCounts files field) ∧
    List.Pairwise countGE (displayedCounts files field) ∧
    ((displayedCounts files field).map Prod.fst).Nodup := by
  refine ⟨?_, ?_, value_counts_false_sorted _, value_counts_false_keys_nodup _⟩
  · intro p hp
    have h1 := (mem_value_counts_false
      (colCells (processFiles files).all_data_df field) p hp).1
    rw [h1]
    exact countVal_map _ _ _
  · intro r hr
    refine ⟨countVal (colCells (processFiles files).all_data_df field)
      (cellAt (processFiles files).all_data_df.cols r field), ?_⟩
    exact value_counts_false_complete _ _ (List.mem_map_of_mem _ hr)

theorem c5_value_count_tables_witness :
    ("Domicile" ∈ analysedCountFields) ∧
      ((∀ p ∈ displayedCounts [sampleFile] "Domicile",
          p.2 = ((processFiles [sampleFile]).all_data_df.rows.filter
            (fun r => cellAt (processFiles [sampleFile]).all_data_df.cols r "Domicile" ==
              p.1)).length) ∧
        (∀ r ∈ (processFiles [sampleFile]).all_data_df.rows,
            ∃ n, (cellAt (processFiles [sampleFile]).all_data_df.cols r "Domicile", n) ∈
              displayedCounts [sampleFile] "Domicile") ∧
        List.Pairwise countGE (displayedCounts [sampleFile] "Domicile") ∧
        ((displayedCounts [sampleFile] "Domicile").map Prod.fst).Nodup) :=
  ⟨by decide, c5_value_count_tables [sampleFile] "Domicile" (by decide)⟩

/-- C6: for every analysed field, the displayed `nunique()` statistic equals
the number of distinct non-missing values of that column of the consolidated
table (the cardinality of the finite set of its non-`none` cell values). -/
theorem c6_nunique_distinct (files : List UploadedFile) (field : String)
    (_hf : field ∈ nuniqueFields) :
    displayedNunique files field =
      ((colCells (processFiles files).all_data_df field).filterMap id).toFinset.card :=
  nuniqueCells_eq_card _

theorem c6_nunique_distinct_witness :
    ("Legal Status" ∈ nuniqueFields) ∧
      displayedNunique [sampleFile] "Legal Status" =
        ((colCells (processFiles [sampleFile]).all_data_df "Legal Status").filterMap
          id).toFinset.card :=
  ⟨by decide, c6_nunique_distinct [sampleFile] "Legal Status" (by decide)⟩

/-- C7: processing is deterministic.  Two uploaded-file sequences that agree
pointwise in file name and file content produce the same final state (the same
consolidated table, processed-file count, found-header set and progress), and
hence the same displayed statistics. -/
theorem c7_deterministic (fs1 fs2 : List UploadedFile)
    (h : List.Forall₂ (fun f g => f.name = g.name ∧ f.content = g.content) fs1 fs2) :
    processFiles fs1 = processFiles fs2 ∧
    (processFiles fs1).processed_files_count = (processFiles fs2).processed_files_count ∧
    (∀ field, displayedCounts fs1 field = displayedCounts fs2 field) ∧
    (∀ field, displayedNunique fs1 field = displayedNunique fs2 field) := by
  have he : fs1 = fs2 := by
    induction h with
    | nil => rfl
    | cons hab _ ih =>
      rename_i a b _ _ _
      cases a
      cases b
      simp only at hab
      rcases hab with ⟨h1, h2⟩
      subst h1
      subst h2
      rw [ih]
  subst he
  exact ⟨rfl, rfl, fun _ => rfl, fun _ => rfl⟩

theorem c7_deterministic_witness :
    (List.Forall₂ (fun f g => f.name = g.name ∧ f.content = g.content)
      [sampleFile, badFile] [sampleFile, badFile]) ∧
      (processFiles [sampleFile, badFile] = processFiles [sampleFile, badFile] ∧
        (processFiles [sampleFile, badFile]).processed_files_count =
          (processFiles [sampleFile, badFile]).processed_files_count ∧
        (∀ field, displayedCounts [sampleFile, badFile] field =
          displayedCounts [sampleFile, badFile] field) ∧
        (∀ field, displayedNunique [sampleFile, badFile] field =
          displayedNunique [sampleFile, badFile] field)) :=
  ⟨List.Forall₂.cons ⟨rfl, rfl⟩ (List.Forall₂.cons ⟨rfl, rfl⟩ List.Forall₂.nil),
    c7_deterministic [sampleFile, badFile] [sampleFile, badFile]
      (List.Forall₂.cons ⟨rfl, rfl⟩ (List.Forall₂.cons ⟨rfl, rfl⟩ List.Forall₂.nil))⟩

/-- C8: a file in which no column matches any common header is skipped via the
`continue` of line 68: the run's consolidated table, processed-file count and
found-header set are exactly those of the run without that file (so it
contributes no rows and no count), the remaining files are still processed,
and the progress bar still advances past it (final progress counts every
file, the skipped one included). -/
theorem c8_skip_no_common_headers (pre post : List UploadedFile) (f : UploadedFile)
    (df0 : DataFrame) (hc : f.content = some df0)
    (hno : current_file_headers (normalizeDF df0).cols = []) :
    (processFiles (pre ++ f :: post)).all_data_df =
      (processFiles (pre ++ post)).all_data_df ∧
    (processFiles (pre ++ f :: post)).processed_files_count =
      (processFiles (pre ++ post)).processed_files_count ∧
    (processFiles (pre ++ f :: post)).found_headers =
      (processFiles (pre ++ post)).found_headers ∧
    (processFiles (pre ++ f :: post)).progress = pre.length + 1 + post.length := by
  have hb : fileBlock f = none := by
    simp [fileBlock, hc, hno]
  have hcore := core_skip_file pre post f hb
  simp only [core, Prod.mk.injEq] at hcore
  refine ⟨hcore.1, hcore.2.1, hcore.2.2, ?_⟩
  have := progress_foldl (pre ++ f :: post) initState
  simp only [processFiles]
  rw [this]
  simp [initState]
  omega

theorem c8_skip_no_common_headers_witness :
    (noHeaderFile.content = some ⟨["Foo"], [[some "z"]]⟩) ∧
      (current_file_headers (normalizeDF ⟨["Foo"], [[some "z"]]⟩).cols = []) ∧
      ((processFiles ([] ++ noHeaderFile :: [sampleFile])).all_data_df =
          (processFiles ([] ++ [sampleFile])).all_data_df ∧
        (processFiles ([] ++ noHeaderFile :: [sampleFile])).processed_files_count =
          (processFiles ([] ++ [sampleFile])).processed_files_count ∧
        (processFiles ([] ++ noHeaderFile :: [sampleFile])).found_headers =
          (processFiles ([] ++ [sampleFile])).found_headers ∧
        (processFiles ([] ++ noHeaderFile :: [sampleFile])).progress =
          List.length ([] : List UploadedFile) + 1 + List.length [sampleFile]) :=
  ⟨rfl, by decide,
    c8_skip_no_common_headers [] [sampleFile] noHeaderFile ⟨["Foo"], [[some "z"]]⟩
      rfl (by decide)⟩

/-- C9: per-file failure is atomic and isolated.  When reading a file raises
(modelled as `content = none`, running the `except` branch of lines 86-87),
the consolidated table, the processed-file count and the found-header set of
the whole run equal those of the run without that file - the failing file
changes nothing and the remaining files are still processed - while the
`finally` of lines 88-89 still advances the progress bar past the failed file
(final progress counts every file). -/
theorem c9_failure_atomic (pre post : List UploadedFile) (f : UploadedFile)
    (hc : f.content = none) :
    (processFiles (pre ++ f :: post)).all_data_df =
      (processFiles (pre ++ post)).all_data_df ∧
    (processFiles (pre ++ f :: post)).processed_files_count =
      (processFiles (pre ++ post)).processed_files_count ∧
    (processFiles (pre ++ f :: post)).found_headers =
      (processFiles (pre ++ post)).found_headers ∧
    (processFiles (pre ++ f :: post)).progress = pre.length + 1 + post.length := by
  have hb : fileBlock f = none := by
    simp [fileBlock, hc]
  have hcore := core_skip_file pre post f hb
  simp only [core, Prod.mk.injEq] at hcore
  refine ⟨hcore.1, hcore.2.1, hcore.2.2, ?_⟩
  have := progress_foldl (pre ++ f :: post) initState
  simp only [processFiles]
  rw [this]
  simp [initState]
  omega

theorem c9_failure_atomic_witness :
    (badFile.content = none) ∧
      ((processFiles ([sampleFile] ++ badFile :: [])).all_data_df =
          (processFiles ([sampleFile] ++ [])).all_data_df ∧
        (processFiles ([sampleFile] ++ badFile :: [])).processed_files_count =
          (processFiles ([sampleFile] ++ [])).processed_files_count ∧
        (processFiles ([sampleFile] ++ badFile :: [])).found_headers =
          (processFiles ([sampleFile] ++ [])).found_headers ∧
        (processFiles ([sampleFile] ++ badFile :: [])).progress =
          List.length [sampleFile] + 1 + List.length ([] : List UploadedFile)) :=
  ⟨rfl, c9_failure_atomic [sampleFile] [] badFile rfl⟩

/-- C10: before matching, every period character is removed from each file's
column names (the normalised columns the matcher sees contain no '.'), in
addition to the stripping of leading/trailing whitespace; in particular a
column named 'Auditor.' - even with surrounding whitespace - is matched and
extracted as the listed header 'Auditor'. -/
theorem c10_periods_removed (df : DataFrame) (c : String)
    (hc : c ∈ (normalizeDF df).cols) :
    ('.' ∉ c.data) ∧
    headerFoundInFile ["Auditor."] "Auditor" = true ∧
    headerFoundInFile ["  Auditor.  "] "Auditor" = true ∧
    current_file_headers ((normalizeDF ⟨["Auditor."], [[some "KPMG"]]⟩).cols) = ["Auditor"] ∧
    "Auditor" ∈ COMMON_HEADERS := by
  refine ⟨?_, by decide, by decide, by decide, by decide⟩
  rcases List.mem_map.1 hc with ⟨c0, _, hcc⟩
  subst hcc
  intro hdot
  unfold normalizeName removeDots at hdot
  have := List.mem_filter.1 hdot
  simp at this

theorem c10_periods_removed_witness :
    ("Domicile" ∈ (normalizeDF sampleDF).cols) ∧
      (('.' ∉ "Domicile".data) ∧
        headerFoundInFile ["Auditor."] "Auditor" = true ∧
        headerFoundInFile ["  Auditor.  "] "Auditor" = true ∧
        current_file_headers ((normalizeDF ⟨["Auditor."], [[some "KPMG"]]⟩).cols) =
          ["Auditor"] ∧
        "Auditor" ∈ COMMON_HEADERS) :=
  ⟨by decide, c10_periods_removed sampleDF "Domicile" (by decide)⟩
